import Mathlib

/-!
Verification development for the autokattis scraping library.

The Python sources are shallowly embedded: each definition below mirrors a
function (or the relevant fragment of a method) from the repository.  Text is
modelled as Lean `String` processed through its underlying `List Char`, Python
floats as exact fractions (`PyFloat`), Python dicts as insertion-ordered
association lists, and the paginated concurrent fetch loop as a fuelled
recursion over an abstract page oracle.
-/

namespace Autokattis

/-! ## Basic string machinery (models of Python `str` operations) -/

/-- Whitespace test used by Python `str.strip()` (the characters occurring in
this codebase's inputs). -/
def isWs (c : Char) : Bool :=
  c == ' ' || c == '\t' || c == '\n' || c == '\r'

/-- Model of Python `str.strip()` on the underlying character list. -/
def trimChars (l : List Char) : List Char :=
  ((l.dropWhile isWs).reverse.dropWhile isWs).reverse

/-- Model of Python `str.strip()`. -/
def strTrim (s : String) : String := ⟨trimChars s.data⟩

/-- Does `pat` occur at the head of `l`? -/
def matchAt : List Char → List Char → Bool
  | [], _ => true
  | _ :: _, [] => false
  | p :: ps, c :: cs => p == c && matchAt ps cs

/-- Fuelled worker for `replaceChars`; the fuel is an upper bound on the
number of characters still to be scanned, so it is never exhausted when
called with `fuel = l.length`. -/
def replaceFuel (pat rep : List Char) : Nat → List Char → List Char
  | _, [] => []
  | 0, l => l
  | fuel + 1, c :: cs =>
    if matchAt pat (c :: cs) then
      rep ++ replaceFuel pat rep fuel (cs.drop (pat.length - 1))
    else
      c :: replaceFuel pat rep fuel cs

/-- Model of Python `str.replace(pat, rep)`: leftmost non-overlapping
replacement. -/
def replaceChars (pat rep : List Char) (l : List Char) : List Char :=
  replaceFuel pat rep l.length l

/-- Model of Python `str.replace`. -/
def strReplace (s pat rep : String) : String := ⟨replaceChars pat.data rep.data s.data⟩

/-- Worker for `runsOf`: `cur` is the current run, reversed. -/
def runsGo (p : Char → Bool) : List Char → List Char → List (List Char)
  | [], cur => if cur.isEmpty then [] else [cur.reverse]
  | c :: cs, cur =>
    if p c then runsGo p cs (c :: cur)
    else if cur.isEmpty then runsGo p cs []
    else cur.reverse :: runsGo p cs []

/-- Maximal runs of characters satisfying `p`; models `re.findall` for a
single character class. -/
def runsOf (p : Char → Bool) (l : List Char) : List (List Char) :=
  runsGo p l []

/-- Model of `re.findall(r'[\d\.]+', s)`. -/
def findNumericRuns (s : String) : List String :=
  (runsOf (fun c => c.isDigit || c == '.') s.data).map String.mk

/-- Model of `re.findall('[A-Za-z]+', s)`. -/
def findAlphaRuns (s : String) : List String :=
  (runsOf Char.isAlpha s.data).map String.mk

/-- Split a character list on a separator character (model of `str.split(sep)`
for a single-character separator). -/
def splitOnChar (sep : Char) : List Char → List (List Char)
  | [] => [[]]
  | c :: cs =>
    if c == sep then [] :: splitOnChar sep cs
    else
      match splitOnChar sep cs with
      | [] => [[c]]
      | r :: rs => (c :: r) :: rs

/-- Numeric value of a digit list. -/
def natOfDigits (l : List Char) : Nat :=
  l.foldl (fun n c => n * 10 + (c.toNat - 48)) 0

/-! ## Python floats

Python `float` values appearing in this library are decimal literals scraped
from HTML (runtimes, scores, difficulties).  We model them as exact fractions
with an explicit numerator and denominator; comparisons are by
cross-multiplication, which agrees with the numeric order of the Python
values. -/

structure PyFloat where
  num : Int
  den : Nat
deriving DecidableEq, Repr

/-- Numeric strict order on modelled floats. -/
def PyFloat.ltb (a b : PyFloat) : Bool :=
  a.num * (b.den : Int) < b.num * (a.den : Int)

/-- Numeric equality on modelled floats (Python `==` on floats). -/
def PyFloat.eqb (a b : PyFloat) : Bool :=
  a.num * (b.den : Int) == b.num * (a.den : Int)

/-- Python unary minus on floats. -/
def PyFloat.neg (a : PyFloat) : PyFloat := ⟨-a.num, a.den⟩

/-- Python `/` on non-negative integers, as used for `tc_pass/tc_full`. -/
def fracOf (p q : Nat) : PyFloat := ⟨p, q⟩

/-- Errors raised by the modelled Python fragments. -/
inductive PyErr where
  | typeError
  | valueError
  | assertionError
  | indexError
deriving DecidableEq, Repr

/-- `float(s)` on the numeric-run strings produced by `re.findall('[\d\.]+')`:
digits with at most one decimal point. -/
def parseDecimalChars (l : List Char) : Option PyFloat :=
  match splitOnChar '.' l with
  | [i] =>
    if i ≠ [] ∧ i.all Char.isDigit then some ⟨natOfDigits i, 1⟩ else none
  | [i, f] =>
    if (i ≠ [] ∨ f ≠ []) ∧ i.all Char.isDigit ∧ f.all Char.isDigit then
      some ⟨natOfDigits i * 10 ^ f.length + natOfDigits f, 10 ^ f.length⟩
    else none
  | _ => none

/-- A Python float that may be the special value `inf`. -/
inductive EFloat where
  | inf
  | fin (v : PyFloat)
deriving DecidableEq, Repr

/-- Model of Python `float(s)` on the inputs reachable in this library:
whitespace-trimmed decimal literals and the literal `inf`. -/
def pyFloat (s : String) : Except PyErr EFloat :=
  let t := trimChars s.data
  if t = "inf".data then .ok .inf
  else
    match parseDecimalChars t with
    | some v => .ok (.fin v)
    | none => .error .valueError

/-- Model of Python `int(s)`: optional sign followed by digits (no decimal
point allowed). -/
def pyInt (s : String) : Except PyErr Int :=
  match trimChars s.data with
  | '-' :: ds =>
    if ds ≠ [] ∧ ds.all Char.isDigit then .ok (-(natOfDigits ds : Int))
    else .error .valueError
  | ds =>
    if ds ≠ [] ∧ ds.all Char.isDigit then .ok (natOfDigits ds : Int)
    else .error .valueError

/-! ## `utils.replace_double_dash`

Source (`src/autokattis/api/utils.py`):
`return type(new)(text.replace('--', str(new)).strip())`.
The two instantiations used by the extractors are `new = float('inf')`
(fastest-runtime column, `str(new) = 'inf'`) and `new = -1`
(shortest-length column, `str(new) = '-1'`). -/

/-- `replace_double_dash(text, float('inf'))`. -/
def replaceDoubleDashInf (text : String) : Except PyErr EFloat :=
  pyFloat (strTrim (strReplace text "--" "inf"))

/-- `replace_double_dash(text, -1)`. -/
def replaceDoubleDashNeg1 (text : String) : Except PyErr Int :=
  pyInt (strTrim (strReplace text "--" "-1"))

/-! ## The id resolver (`utils.guess_id`)

`guess_id` consults `thefuzz.fuzz.ratio`, which computes the normalised indel
similarity `100 * 2 * lcs(a, b) / (|a| + |b|)`, rounded to the nearest integer
(ties to even, as Python `round` does).  We embed that scoring function via a
longest-common-subsequence computation; the secondary score
`fuzz.partial_ratio` enters only as a tie-break inside `max`, so `guess_id` is
parametrised over it. -/

/-- One row-update step of the LCS dynamic program: `c` is the current
character of the first string, `b` the remaining characters of the second
string, `prev` the remaining entries of the previous row, `diag` and `left`
the north-west and west neighbours. -/
def lcsRow (c : Char) : List Char → List Nat → Nat → Nat → List Nat
  | [], _, _, _ => []
  | _ :: _, [], _, _ => []
  | bc :: bs, p :: ps, diag, left =>
    let cur := if c == bc then diag + 1 else max left p
    cur :: lcsRow c bs ps p cur

/-- Advance the LCS dynamic program by one character of the first string. -/
def lcsNext (b : List Char) (row : List Nat) (c : Char) : List Nat :=
  match row with
  | [] => []
  | r0 :: rs => 0 :: lcsRow c b rs r0 0

/-- Length of the longest common subsequence, computed row by row. -/
def lcs (a b : List Char) : Nat :=
  (a.foldl (lcsNext b) (List.replicate (b.length + 1) 0)).getLastD 0

/-- Model of `thefuzz.fuzz.ratio`: normalised indel similarity in percent,
rounded half-to-even as Python `round` does. -/
def fuzzScore (a b : String) : Nat :=
  let s := a.data.length + b.data.length
  if s = 0 then 100
  else
    let n := 200 * lcs a.data b.data
    let q := n / s
    let r := n % s
    if 2 * r < s then q
    else if s < 2 * r then q + 1
    else if q % 2 = 0 then q else q + 1

/-- Strict lexicographic order on score pairs, as Python compares the key
tuples `(fuzz.ratio(...), fuzz.partial_ratio(...))`. -/
def lexLt (p q : Nat × Nat) : Bool :=
  p.1 < q.1 || (p.1 == q.1 && p.2 < q.2)

/-- Worker for `pyMaxBy`: Python `max` keeps the current maximum and replaces
it only when a strictly greater key appears. -/
def pyMaxAux (key : α → Nat × Nat) (b : α) : List α → α
  | [] => b
  | c :: cs => pyMaxAux key (if lexLt (key b) (key c) then c else b) cs

/-- Model of Python `max(iterable, key=...)`: first element with maximal key;
`none` models the `ValueError` on an empty iterable. -/
def pyMaxBy (key : α → Nat × Nat) : List α → Option α
  | [] => none
  | c :: cs => some (pyMaxAux key c cs)

/-- First-occurrence deduplication: the key order of a Python dict built by
repeated insertion. -/
def dedupFirst : List String → List String
  | [] => []
  | x :: xs => x :: (dedupFirst xs).filter (fun y => y ≠ x)

/-- Lookup in `reverse_mapping = {v: k for k, v in data.items()}`: for
duplicate values the later pair overwrites, hence the reversed traversal. -/
def revLookup (data : List (String × String)) (v : String) : Option String :=
  (data.map (fun p => (p.2, p.1))).reverse.lookup v

/-- The candidate key list of `candidates = {**data, **reverse_mapping}`:
keys of `data` in order, then values of `data` (in first-occurrence order)
that are not already keys. -/
def candidateKeys (data : List (String × String)) : List String :=
  let keys := data.map Prod.fst
  keys ++ (dedupFirst (data.map Prod.snd)).filter (fun v => ¬ keys.contains v)

/-- Model of `utils.guess_id` (`src/autokattis/api/utils.py`), parametrised
over the secondary scorer `pr` (= `fuzz.partial_ratio`).  `.error .valueError`
models `max` over an empty candidate set, `.error .invalidId` the final
`raise Exception('Invalid ID provided!')`. -/
inductive GuessErr where
  | valueError
  | invalidId
deriving DecidableEq, Repr

/-- The fuzzy-search block of `guess_id`:
`best = max(candidates, key=lambda c: (fuzz.ratio(guess, c), fuzz.partial_ratio(guess, c)))`
followed by the exact/reverse resolution of `best`. -/
def guessFuzzy (pr : String → String → Nat) (guess : String)
    (data : List (String × String)) : Except GuessErr String :=
  match pyMaxBy (fun c => (fuzzScore guess c, pr guess c)) (candidateKeys data) with
  | none => .error .valueError
  | some best =>
    if (data.map Prod.fst).contains best then .ok best
    else
      match revLookup data best with
      | some k => .ok k
      | none => .error .invalidId

def guess_id (pr : String → String → Nat) (guess : String)
    (data : List (String × String)) : Except GuessErr String :=
  if (data.map Prod.fst).contains guess then .ok guess
  else
    match revLookup data guess with
    | some k => .ok k
    | none => guessFuzzy pr guess data

/-! ## The paginated concurrent fetch loop

All four paginated capabilities (`OpenKattis.problems` in both modes,
`OpenKattis.achievements`, `OpenKattis.stats`) share the same loop:

```
has_content = True
while has_content:
    has_content = False
    futures.clear()
    for _ in range(self.get_max_workers()):
        futures.append(executor.submit(self.new_get, url, params=params.copy()))
        params['page'] += 1
    for f in as_completed(futures):
        ... for row in table rows: if <row is a data row>: has_content = True ...
```

We model a page oracle `pages : Nat → List Bool` giving, for each page
number, the per-row outcome of the endpoint-specific data-row test (the
`if columns:` / `if columns and len(columns) >= ...:` / anchor checks), a
worker count `W`, and a starting cursor.  The loop is embedded with fuel,
since the Python `while` has no termination guarantee. -/

/-- The page numbers requested by one round: the cursor is advanced by 1 per
submitted request, so a round covers `W` consecutive pages. -/
def batchPages (p W : Nat) : List Nat := (List.range W).map (p + ·)

/-- The `has_content` flag computed by one round, folding over every row of
every page of the batch exactly as the nested `for` loops do (starting from
the `has_content = False` reset). -/
def roundContent (pages : Nat → List Bool) (p W : Nat) : Bool :=
  (batchPages p W).foldl
    (fun acc q => (pages q).foldl (fun a r => if r then true else a) acc) false

/-- The fetch loop: returns the list of all page numbers requested before the
loop exits.  Each iteration requests a full batch, then either continues (the
batch produced a data row) or stops. -/
def fetchLoop (pages : Nat → List Bool) (W : Nat) : Nat → Nat → List Nat
  | _, 0 => []
  | p, fuel + 1 =>
    if roundContent pages p W then batchPages p W ++ fetchLoop pages W (p + W) fuel
    else batchPages p W

/-- A page holds a data row. -/
def pageHasRow (pages : Nat → List Bool) (q : Nat) : Bool := (pages q).any id

/-! ## Ordering machinery for `sorted(data, key=lambda x: x['id'])`

Record ids are strings; Python compares them lexicographically by code
point.  We embed that order on the underlying character lists and realise
Python's stable `sorted` as insertion sort (any two stable sorts under the
same key agree). -/

/-- Lexicographic (code-point) order on character lists: Python `str <=`. -/
def charListLe : List Char → List Char → Bool
  | [], _ => true
  | _ :: _, [] => false
  | c :: cs, d :: ds =>
    if c < d then true
    else if d < c then false
    else charListLe cs ds

/-- Python `str <=`. -/
def strLe (a b : String) : Bool := charListLe a.data b.data

/-- Model of `sorted(data, key=key)` for a string-valued key. -/
def pySortedBy (key : α → String) (l : List α) : List α :=
  l.insertionSort (fun a b => strLe (key a) (key b) = true)

/-! ## The stats aggregator (`OpenKattis.stats` / `NUSKattis.stats`)

One scraped submission row of the `status=AC` submission table.  The fields
are exactly those the reducer reads; `runtime` keeps the raw displayed text
(the code deliberately does not convert it to float because exceeded
runtimes carry a `>` marker). -/

structure Submission where
  name : String
  timestamp : String
  runtime : String
  language : String
  test_case_passed : Nat
  test_case_full : Nat
  link : String
  score : Option PyFloat
deriving DecidableEq, Repr

/-- `float(x['runtime'] if '>' not in x['runtime'] else 1e9)`. -/
def runtimeVal (s : String) : PyFloat :=
  if s.data.contains '>' then ⟨1000000000, 1⟩
  else (parseDecimalChars (trimChars s.data)).getD ⟨0, 1⟩

/-- The key tuple
`(x.get('score', tc_pass/tc_full), x['test_case_passed'], -float(...))`.
`defRatio` is `tc_pass/tc_full` of the row currently being processed by the
loop — the same value is used as the default for both compared records. -/
def subKey (defRatio : PyFloat) (x : Submission) : PyFloat × Nat × PyFloat :=
  (x.score.getD defRatio, x.test_case_passed, (runtimeVal x.runtime).neg)

/-- Python's lexicographic comparison of the key tuples. -/
def subKeyLt (p q : PyFloat × Nat × PyFloat) : Bool :=
  PyFloat.ltb p.1 q.1 ||
    (PyFloat.eqb p.1 q.1 &&
      (p.2.1 < q.2.1 || (p.2.1 == q.2.1 && PyFloat.ltb p.2.2 q.2.2)))

/-- `max(data[pid], new_data, key=...)`: the second argument wins only on a
strictly greater key. -/
def pyMax2 (k : Submission → PyFloat × Nat × PyFloat) (a b : Submission) : Submission :=
  if subKeyLt (k a) (k b) then b else a

/-- Python dict assignment `d[k] = v`: overwrite in place if the key exists,
else append (dicts preserve insertion order). -/
def dictSet (d : List (String × α)) (k : String) (v : α) : List (String × α) :=
  if d.any (fun p => p.1 == k) then
    d.map (fun p => if p.1 == k then (k, v) else p)
  else d ++ [(k, v)]

/-- The per-row update
`data[pid] = new_data if pid not in data else max(data[pid], new_data, key=...)`
with `defRatio` instantiated from the incoming row. -/
def statsStep (d : List (String × Submission)) (pid : String) (new : Submission) :
    List (String × Submission) :=
  let defRatio := fracOf new.test_case_passed new.test_case_full
  match d.lookup pid with
  | none => dictSet d pid new
  | some old => dictSet d pid (pyMax2 (subKey defRatio) old new)

/-- Folding the reducer over the scraped rows (in arrival order). -/
def statsFold (rows : List (String × Submission)) : List (String × Submission) :=
  rows.foldl (fun d r => statsStep d r.1 r.2) []

/-! ## Language validation

`OpenKattis.stats` (the batch API taking a sequence of languages) skips an
unknown language with a printed warning and continues with the rest:

```
for language in {*languages}:
    if language and language not in self.get_database().get_languages():
        print(f'[stats] Cannot find {language}, ...'); continue
    ... fetch and reduce ...
```

The legacy `Kattis.stats` (`src/autokattis/api/__init__.py`) instead asserts
every requested language up front:

```
for lang in (language, *languages):
    if lang != '':
        assert lang in LANGUAGES, f'Cannot find {lang}, ...'
```
-/

/-- `OpenKattis.stats`: the per-language loop, abstracting the paginated
fetch+reduce for one language as `rows`.  Iteration over the Python set
`{*languages}` is modelled as first-occurrence deduplication. -/
def openStatsReturn (known : List String) (rows : String → List (String × Submission))
    (languages : List String) : List (String × Submission) :=
  pySortedBy Prod.fst
    ((dedupFirst languages).foldl
      (fun ret lang =>
        if lang ≠ "" ∧ ¬ known.contains lang then ret
        else ret ++ statsFold (rows lang))
      [])

/-- The assert loop of the legacy `Kattis.stats`. -/
def kattisStatsCheck (known : List String) : List String → Except PyErr Unit
  | [] => .ok ()
  | l :: ls =>
    if l ≠ "" ∧ ¬ known.contains l then .error .assertionError
    else kattisStatsCheck known ls

/-! ## Low-detail problems (`OpenKattis.problems(low_detail_mode=True)`)

Rows are reduced to the data the dedup logic consumes: the problem id
scraped from the last anchor of the name cell, and the name text. -/

structure LowRecord where
  name : String
  id : String
  link : String
deriving DecidableEq, Repr

/-- One row of the low-detail scan: skip the row if its pid was already seen,
else record it. -/
def lowDetailStep (baseUrl : String) (st : List String × List LowRecord)
    (row : String × String) : List String × List LowRecord :=
  let (pidSet, data) := st
  if pidSet.contains row.1 then st
  else (row.1 :: pidSet,
    data ++ [⟨row.2, row.1, baseUrl ++ "/problems/" ++ row.1⟩])

/-- The low-detail problems result: fold the dedup step over all scraped rows
(`(pid, name)` pairs in arrival order), then sort by id. -/
def problemsLowReturn (baseUrl : String) (rows : List (String × String)) : List LowRecord :=
  pySortedBy LowRecord.id (rows.foldl (lowDetailStep baseUrl) ([], [])).2

/-! ## Difficulty/category cell parsing

`OpenKattis.problems` (full-detail mode, lines 181–187):

```
difficulty = float((re.findall('[\d\.]+', cell) or [None])[-1])
try:    category = (re.findall('[A-Za-z]+', cell) or ['N/A'])[0]
except: category = 'N/A'
```

`OpenKattis.achievements` (lines 451–454):

```
try:        difficulty = float(re.findall('[\d\.]+', cell)[-1])
except:     difficulty = None
try:        category = re.findall('[A-Za-z]+', cell)[0]
except:     category = 'N/A'
```

Note the asymmetry: in `problems` the difficulty conversion is *not* guarded,
so a cell without a numeric run evaluates `float(None)`, a `TypeError`. -/

/-- Difficulty parsing in `OpenKattis.problems`: last numeric run, converted
with `float`; an absent numeric run reaches `float(None)`. -/
def difficultyCellProblems (text : String) : Except PyErr PyFloat :=
  match (findNumericRuns text).getLast? with
  | none => .error .typeError
  | some run =>
    match parseDecimalChars run.data with
    | some v => .ok v
    | none => .error .valueError

/-- Category parsing in `OpenKattis.problems`: first alphabetic run, with the
`or ['N/A']` fallback (the surrounding `try` never fires). -/
def categoryCellProblems (text : String) : String :=
  (findAlphaRuns text).headD "N/A"

/-- Difficulty parsing in `OpenKattis.achievements`: wrapped in
`try/except`, so any failure yields `None`. -/
def difficultyCellAchievements (text : String) : Option PyFloat :=
  match (findNumericRuns text).getLast? with
  | none => none
  | some run => parseDecimalChars run.data

/-- Category parsing in `OpenKattis.achievements`: `try: findall[0] except:
'N/A'`. -/
def categoryCellAchievements (text : String) : String :=
  (findAlphaRuns text).headD "N/A"

/-! ## The near-me ranklist (`OpenKattis.ranklist`)

The method extracts one record per table row and returns
`self.Result(data)` — the rows in page order, with no sort.  A row is
embedded as the pieces the code reads: the stripped cell texts for the rank,
user and score columns, and the `(href.split('/'), title)` pairs of the
anchors inside the user cell. -/

structure RanklistRow where
  rankText : String
  userText : String
  scoreText : String
  anchors : List (List String × Option String)
deriving Repr

structure RanklistRecord where
  rank : Option Int
  name : String
  points : PyFloat
  country : Option String
  university : Option String
  username : Option String
  country_code : Option String
  university_code : Option String
deriving DecidableEq, Repr

/-- Python `str.isdigit()` (ASCII digits suffice for the scraped ranks). -/
def pyIsDigit (s : String) : Bool :=
  ¬ s.data.isEmpty && s.data.all Char.isDigit

/-- Build one ranklist record:
`rank = int(text) if text.isdigit() else None`,
`points = float(re.findall(r'[\d\.]+', text)[0])`, then the anchor loop
assigning `username` / `university(_code)` / `country(_code)`. -/
def mkRanklistRecord (row : RanklistRow) : Except PyErr RanklistRecord :=
  match (findNumericRuns row.scoreText).head? with
  | none => .error .indexError
  | some ptsRun =>
    match parseDecimalChars ptsRun.data with
    | none => .error .valueError
    | some pts =>
      let init : RanklistRecord :=
        { rank := if pyIsDigit row.rankText then some (natOfDigits row.rankText.data) else none
          name := row.userText
          points := pts
          country := none
          university := none
          username := none
          country_code := none
          university_code := none }
      .ok (row.anchors.foldl
        (fun rec a =>
          let urlsplit := a.1
          if urlsplit.contains "users" then
            { rec with username := some (urlsplit.getLastD "") }
          else if urlsplit.contains "universities" then
            { rec with university_code := some (urlsplit.getLastD ""), university := a.2 }
          else if urlsplit.contains "countries" then
            { rec with country_code := some (urlsplit.getLastD ""), country := a.2 }
          else rec)
        init)

/-- `OpenKattis.ranklist`: records accumulated with `data.append(new_data)`
in row order and returned without sorting. -/
def ranklistReturn : List RanklistRow → Except PyErr (List RanklistRecord)
  | [] => .ok []
  | r :: rs =>
    match mkRanklistRecord r with
    | .error e => .error e
    | .ok rec =>
      match ranklistReturn rs with
      | .error e => .error e
      | .ok l => .ok (rec :: l)

/-! ## Memoization (`@lru_cache`) and argument normalization (`list_to_tuple`)

`list_to_tuple` (in `src/autokattis/api/utils.py`) rewrites the first
positional argument (or the `problem_ids` / `languages` keyword) with
`tuple(value)` whenever its type is `list`, `dict` or `set`, so that
`lru_cache` can hash it.  `tuple(...)` preserves the iteration order of its
argument.  The cache itself maps an argument key to the previously computed
result; a hit issues no network request. -/

inductive PyArg where
  | strA (s : String)
  | listA (xs : List String)
  | tupleA (xs : List String)
  | setA (xs : List String)
  | dictA (keys : List String)
deriving DecidableEq, Repr

/-- The `tuple(args[0]) if type(args[0]) in (list, dict, set) else args[0]`
rewrite of `list_to_tuple`.  `setA`/`dictA` carry their iteration order;
`tuple` of a dict is the tuple of its keys. -/
def list_to_tuple_arg : PyArg → PyArg
  | .listA xs => .tupleA xs
  | .setA xs => .tupleA xs
  | .dictA keys => .tupleA keys
  | a => a

/-- Association-list lookup for the cache. -/
def assocFind {κ ρ : Type} [DecidableEq κ] : List (κ × ρ) → κ → Option ρ
  | [], _ => none
  | p :: ps, k => if p.1 = k then some p.2 else assocFind ps k

/-- One capability call through `lru_cache`: on a hit return the stored
result with zero network requests; on a miss run `compute` (which reports the
number of requests it issued) and store the result. -/
def memoCall {κ ρ : Type} [DecidableEq κ] (cache : List (κ × ρ))
    (compute : κ → ρ × Nat) (k : κ) : ρ × List (κ × ρ) × Nat :=
  match assocFind cache k with
  | some r => (r, cache, 0)
  | none =>
    let c := compute k
    (c.1, cache ++ [(k, c.1)], c.2)

/-! ## Concrete demonstration data used by counterexamples and witnesses -/

/-- A scoreless accepted submission: 2 of 3 test cases, runtime 0.50. -/
def subHighRat : Submission :=
  ⟨"probA", "2021-01-01", "0.50", "C++", 2, 3, "linkA", none⟩

/-- A scoreless accepted submission: 3 of 5 test cases, runtime 0.10. -/
def subLowRat : Submission :=
  ⟨"probB", "2021-01-02", "0.10", "C++", 3, 5, "linkB", none⟩

/-- A ranklist row whose user anchor points at `/users/zeta`. -/
def rowZeta : RanklistRow :=
  ⟨"1", "Zeta", "100.0", [(["", "users", "zeta"], none)]⟩

/-- A ranklist row whose user anchor points at `/users/alpha`. -/
def rowAlpha : RanklistRow :=
  ⟨"2", "Alpha", "90.0", [(["", "users", "alpha"], none)]⟩

/-- The record extracted from `rowZeta`. -/
def recZeta : RanklistRecord :=
  ⟨some 1, "Zeta", ⟨1000, 10⟩, none, none, some "zeta", none, none⟩

/-- The record extracted from `rowAlpha`. -/
def recAlpha : RanklistRecord :=
  ⟨some 2, "Alpha", ⟨900, 10⟩, none, none, some "alpha", none, none⟩

/-- The three-country id database used by the resolver examples. -/
def countryMap : List (String × String) :=
  [("SGP", "Singapore"), ("USA", "United States"), ("IDN", "Indonesia")]

/-- A page oracle with one data row on pages 0–2 and nothing afterwards. -/
def demoPages (q : Nat) : List Bool := if q < 3 then [true] else []

/-! # Theorems

Helper lemmas first, then one theorem per claim. -/

/-! ## Order lemmas for `charListLe` / `strLe` -/

theorem charListLe_total : ∀ a b : List Char, charListLe a b = true ∨ charListLe b a = true
  | [], _ => Or.inl rfl
  | _ :: _, [] => Or.inr rfl
  | c :: cs, d :: ds => by
    rcases lt_trichotomy c d with h | h | h
    · left; simp [charListLe, h]
    · subst h
      rcases charListLe_total cs ds with h' | h'
      · left; simp [charListLe, lt_irrefl, h']
      · right; simp [charListLe, lt_irrefl, h']
    · right; simp [charListLe, h]

theorem charListLe_trans :
    ∀ a b c : List Char,
      charListLe a b = true → charListLe b c = true → charListLe a c = true
  | [], _, _ => fun _ _ => rfl
  | _ :: _, [], _ => fun h _ => by simp [charListLe] at h
  | _ :: _, _ :: _, [] => fun _ h => by simp [charListLe] at h
  | x :: xs, y :: ys, z :: zs => by
    intro h1 h2
    rcases lt_trichotomy x y with hxy | hxy | hxy
    · rcases lt_trichotomy y z with hyz | hyz | hyz
      · simp [charListLe, lt_trans hxy hyz]
      · subst hyz; simp [charListLe, hxy]
      · simp [charListLe, hyz, lt_asymm hyz] at h2
    · subst hxy
      simp only [charListLe, lt_irrefl, if_false] at h1
      rcases lt_trichotomy x z with hyz | hyz | hyz
      · simp [charListLe, hyz]
      · subst hyz
        simp only [charListLe, lt_irrefl, if_false] at h2 ⊢
        exact charListLe_trans xs ys zs h1 h2
      · simp [charListLe, hyz, lt_asymm hyz] at h2
    · simp [charListLe, hxy, lt_asymm hxy] at h1

theorem charListLe_antisymm :
    ∀ a b : List Char, charListLe a b = true → charListLe b a = true → a = b
  | [], [] => fun _ _ => rfl
  | [], _ :: _ => fun _ h => by simp [charListLe] at h
  | _ :: _, [] => fun h _ => by simp [charListLe] at h
  | x :: xs, y :: ys => by
    intro h1 h2
    rcases lt_trichotomy x y with hxy | hxy | hxy
    · simp [charListLe, hxy, lt_asymm hxy] at h2
    · subst hxy
      simp only [charListLe, lt_irrefl, if_false] at h1 h2
      rw [charListLe_antisymm xs ys h1 h2]
    · simp [charListLe, hxy, lt_asymm hxy] at h1

theorem strLe_total (a b : String) : strLe a b = true ∨ strLe b a = true :=
  charListLe_total a.data b.data

theorem strLe_trans {a b c : String} (h1 : strLe a b = true) (h2 : strLe b c = true) :
    strLe a c = true :=
  charListLe_trans a.data b.data c.data h1 h2

theorem strLe_antisymm {a b : String} (h1 : strLe a b = true) (h2 : strLe b a = true) :
    a = b := by
  cases a; cases b
  exact congrArg String.mk (charListLe_antisymm _ _ h1 h2)

/-! ## Sorting lemmas for `pySortedBy` -/

theorem pySortedBy_perm (key : α → String) (l : List α) : (pySortedBy key l).Perm l :=
  List.perm_insertionSort _ l

theorem pySortedBy_sorted (key : α → String) (l : List α) :
    (pySortedBy key l).Sorted (fun a b => strLe (key a) (key b) = true) := by
  letI : IsTotal α (fun a b => strLe (key a) (key b) = true) :=
    ⟨fun a b => strLe_total (key a) (key b)⟩
  letI : IsTrans α (fun a b => strLe (key a) (key b) = true) :=
    ⟨fun _ _ _ => strLe_trans⟩
  exact List.sorted_insertionSort _ l

/-- Two sorted lists that are permutations of each other and have pairwise
distinct keys are equal. -/
theorem eq_of_sorted_of_perm (key : α → String) :
    ∀ {l₁ l₂ : List α}, l₁.Perm l₂ →
      l₁.Sorted (fun a b => strLe (key a) (key b) = true) →
      l₂.Sorted (fun a b => strLe (key a) (key b) = true) →
      (l₁.map key).Nodup → l₁ = l₂
  | [], l₂ => fun h _ _ _ => (h.symm.eq_nil).symm ▸ rfl
  | a :: as, [] => fun h _ _ _ => absurd h.eq_nil (by simp)
  | a :: as, b :: bs => by
    intro h s₁ s₂ nd
    have hb1 : b ∈ a :: as := h.mem_iff.mpr (by simp)
    have ha2 : a ∈ b :: bs := h.mem_iff.mp (by simp)
    have hle1 : strLe (key a) (key b) = true ∨ a = b := by
      rcases List.mem_cons.mp hb1 with hb | hb
      · exact Or.inr hb.symm
      · exact Or.inl ((List.pairwise_cons.mp s₁).1 b hb)
    have hle2 : strLe (key b) (key a) = true ∨ a = b := by
      rcases List.mem_cons.mp ha2 with hb | hb
      · exact Or.inr hb
      · exact Or.inl ((List.pairwise_cons.mp s₂).1 a hb)
    have hab : a = b := by
      rcases hle1 with h1 | h1
      · rcases hle2 with h2 | h2
        · have hk : key a = key b := strLe_antisymm h1 h2
          exact List.inj_on_of_nodup_map nd (by simp) (by simpa using hb1) hk
        · exact h2
      · exact h1
    subst hab
    have htail : as.Perm bs := h.cons_inv
    have := eq_of_sorted_of_perm key htail (List.pairwise_cons.mp s₁).2
      (List.pairwise_cons.mp s₂).2 (by simpa using (List.nodup_cons.mp (by simpa using nd)).2)
    rw [this]

/-- `sorted(·, key)` is insensitive to the arrival order of the input when
the keys are pairwise distinct. -/
theorem pySortedBy_perm_invariant (key : α → String) {l₁ l₂ : List α}
    (h : l₁.Perm l₂) (nd : (l₁.map key).Nodup) :
    pySortedBy key l₁ = pySortedBy key l₂ := by
  refine eq_of_sorted_of_perm key ?_ (pySortedBy_sorted key l₁) (pySortedBy_sorted key l₂) ?_
  · exact (pySortedBy_perm key l₁).trans (h.trans (pySortedBy_perm key l₂).symm)
  · exact ((pySortedBy_perm key l₁).map key).nodup_iff.mpr nd

/-! ## Pagination lemmas -/

theorem foldl_or_eq (rows : List Bool) :
    ∀ acc : Bool, rows.foldl (fun a r => if r then true else a) acc = (acc || rows.any id) := by
  induction rows with
  | nil => intro acc; simp
  | cons r rs ih =>
    intro acc
    cases r
    · have h : List.foldl (fun a r => if r then true else a) acc (false :: rs)
          = List.foldl (fun a r => if r then true else a) acc rs := rfl
      rw [h, ih acc]
      simp
    · have h : List.foldl (fun a r => if r then true else a) acc (true :: rs)
          = List.foldl (fun a r => if r then true else a) true rs := rfl
      rw [h, ih true]
      simp

/-- The `has_content` flag of a round is true iff some page of the batch
contributed at least one data row. -/
theorem roundContent_eq_any (pages : Nat → List Bool) (p W : Nat) :
    roundContent pages p W = (batchPages p W).any (pageHasRow pages) := by
  suffices h : ∀ (qs : List Nat) (acc : Bool),
      qs.foldl (fun a q => (pages q).foldl (fun a r => if r then true else a) a) acc
        = (acc || qs.any (pageHasRow pages)) by
    simpa [roundContent] using h (batchPages p W) false
  intro qs
  induction qs with
  | nil => intro acc; simp
  | cons q qs ih =>
    intro acc
    have h : List.foldl (fun a q => (pages q).foldl (fun a r => if r then true else a) a)
        acc (q :: qs)
        = List.foldl (fun a q => (pages q).foldl (fun a r => if r then true else a) a)
          ((pages q).foldl (fun a r => if r then true else a) acc) qs := rfl
    rw [h, foldl_or_eq, ih]
    simp [pageHasRow, Bool.or_assoc]

/-- `batchPages` for the next cursor, shifted. -/
theorem batchPages_shift (p W : Nat) :
    batchPages (p + W) W = (batchPages p W).map (· + W) := by
  simp only [batchPages, List.map_map]
  refine List.map_congr_left ?_
  intro i _
  simp [Function.comp]
  omega

/-- The fetch loop requests exactly the pages of rounds `0 … r₀`, where `r₀`
is the first round whose whole batch is empty, and stops there. -/
theorem fetchLoop_spec (pages : Nat → List Bool) (W : Nat) :
    ∀ (r₀ p₀ fuel : Nat), r₀ < fuel →
      (∀ i < W, pageHasRow pages (p₀ + r₀ * W + i) = false) →
      (∀ r < r₀, ∃ i < W, pageHasRow pages (p₀ + r * W + i) = true) →
      fetchLoop pages W p₀ fuel = (List.range ((r₀ + 1) * W)).map (p₀ + ·) := by
  intro r₀
  induction r₀ with
  | zero =>
    intro p₀ fuel hfuel hempty _
    obtain ⟨fuel, rfl⟩ : ∃ f, fuel = f + 1 := ⟨fuel - 1, by omega⟩
    have hrc : roundContent pages p₀ W = false := by
      rw [roundContent_eq_any]
      simp only [List.any_eq_false]
      intro q hq
      simp only [batchPages, List.mem_map, List.mem_range] at hq
      obtain ⟨i, hi, rfl⟩ := hq
      simpa using hempty i hi
    simp [fetchLoop, hrc, batchPages]
  | succ r ih =>
    intro p₀ fuel hfuel hempty hprev
    obtain ⟨fuel, rfl⟩ : ∃ f, fuel = f + 1 := ⟨fuel - 1, by omega⟩
    have hrc : roundContent pages p₀ W = true := by
      rw [roundContent_eq_any]
      obtain ⟨i, hi, hrow⟩ := hprev 0 (Nat.succ_pos r)
      simp only [List.any_eq_true]
      refine ⟨p₀ + i, ?_, by simpa using hrow⟩
      simp only [batchPages, List.mem_map, List.mem_range]
      exact ⟨i, hi, rfl⟩
    have hrec := ih (p₀ + W) fuel (by omega)
      (by intro i hi; have := hempty i hi; convert this using 3; ring)
      (by
        intro r' hr'
        obtain ⟨i, hi, hrow⟩ := hprev (r' + 1) (by omega)
        exact ⟨i, hi, by convert hrow using 3; ring⟩)
    rw [fetchLoop, if_pos hrc, hrec]
    have hsplit : (r + 1 + 1) * W = W + (r + 1) * W := by ring
    rw [hsplit, List.range_add, List.map_append]
    congr 1
    rw [List.map_map]
    refine List.map_congr_left ?_
    intro i _
    simp only [Function.comp_apply]
    omega

/-! ## Lemmas about Python `max` and the resolver candidate set -/

/-- `pyMaxAux` yields its seed or a list element. -/
theorem pyMaxAux_mem (key : α → Nat × Nat) :
    ∀ (l : List α) (b : α), pyMaxAux key b l = b ∨ pyMaxAux key b l ∈ l := by
  intro l
  induction l with
  | nil => intro b; exact Or.inl rfl
  | cons c cs ih =>
    intro b
    simp only [pyMaxAux]
    by_cases h : lexLt (key b) (key c) = true
    · rw [if_pos h]
      rcases ih c with h' | h'
      · exact Or.inr (by simp [h'])
      · exact Or.inr (by simp [h'])
    · rw [if_neg h]
      rcases ih b with h' | h'
      · exact Or.inl h'
      · exact Or.inr (by simp [h'])

/-- Python `max` over a non-empty iterable returns a member. -/
theorem pyMaxBy_mem (key : α → Nat × Nat) {l : List α} {x : α}
    (h : pyMaxBy key l = some x) : x ∈ l := by
  cases l with
  | nil => simp [pyMaxBy] at h
  | cons c cs =>
    simp only [pyMaxBy, Option.some_inj] at h
    rcases pyMaxAux_mem key cs c with h' | h'
    · rw [← h, h']; exact List.mem_cons_self c cs
    · rw [← h]; exact List.mem_cons_of_mem _ h'

/-- If the unique strict maximiser of the primary score is `x`, Python `max`
returns `x` no matter what the tie-break score is. -/
theorem pyMaxAux_eq_of_strict (f g : α → Nat) (x : α) :
    ∀ (l : List α) (b : α), (b = x ∨ f b < f x) → (∀ y ∈ l, y = x ∨ f y < f x) →
      (x ∈ l ∨ b = x) → pyMaxAux (fun c => (f c, g c)) b l = x := by
  intro l
  induction l with
  | nil =>
    intro b _ _ hx
    rcases hx with hx | hx
    · simp at hx
    · simpa [pyMaxAux] using hx
  | cons c cs ih =>
    intro b hb hl hx
    simp only [pyMaxAux]
    have hnext : (if lexLt (f b, g b) (f c, g c) then c else b) = x ∨
        f (if lexLt (f b, g b) (f c, g c) then c else b) < f x := by
      by_cases h : lexLt (f b, g b) (f c, g c) = true
      · rw [if_pos h]; exact hl c (by simp)
      · rw [if_neg h]; exact hb
    apply ih _ hnext (fun y hy => hl y (by simp [hy]))
    rcases hx with hx | hx
    · rcases List.mem_cons.mp hx with h' | h'
      · right
        rcases hb with hb | hb
        · rw [hb, ← h']
          simp
        · rw [if_pos (by simp [lexLt, h' ▸ hb])]
          exact h'.symm
      · exact Or.inl h'
    · right
      rcases hl c (by simp) with hc | hc
      · by_cases h : lexLt (f b, g b) (f c, g c) = true
        · rw [if_pos h]; exact hc
        · rw [if_neg h]; exact hx
      · rw [if_neg ?hneg]
        · exact hx
        case hneg =>
          rw [hx]
          simp only [lexLt, Bool.or_eq_true, decide_eq_true_eq, Bool.and_eq_true, beq_iff_eq]
          push_neg
          exact ⟨by omega, fun h' => by omega⟩

theorem dedupFirst_subset : ∀ {l : List String} {x : String}, x ∈ dedupFirst l → x ∈ l := by
  intro l
  induction l with
  | nil => intro x h; simp [dedupFirst] at h
  | cons a as ih =>
    intro x h
    simp only [dedupFirst, List.mem_cons] at h
    rcases h with h | h
    · simp [h]
    · exact List.mem_cons_of_mem _ (ih (List.mem_of_mem_filter h))

theorem lookup_isSome_of_mem {l : List (String × String)} {v : String}
    (h : v ∈ l.map Prod.fst) : (l.lookup v).isSome = true := by
  induction l with
  | nil => simp at h
  | cons p ps ih =>
    simp only [List.map_cons, List.mem_cons] at h
    by_cases hv : p.1 = v
    · simp [List.lookup, hv]
    · rcases h with h | h
      · exact absurd h.symm hv
      · have hb : (v == p.1) = false := by simp [Ne.symm hv]
        cases p
        simp only [List.lookup, hb]
        exact ih h

/-- A value of the mapping is always a key of `reverse_mapping`. -/
theorem revLookup_isSome_of_mem {data : List (String × String)} {v : String}
    (h : v ∈ data.map Prod.snd) : (revLookup data v).isSome = true := by
  refine lookup_isSome_of_mem ?_
  simp only [List.map_reverse, List.map_map, List.mem_reverse]
  simpa [Function.comp] using h

/-! ## Dict and dedup invariants -/

theorem dictSet_keys (d : List (String × α)) (k : String) (v : α) :
    (dictSet d k v).map Prod.fst
      = if d.any (fun p => p.1 == k) then d.map Prod.fst else d.map Prod.fst ++ [k] := by
  by_cases h : d.any (fun p => p.1 == k) = true
  · rw [dictSet, if_pos h, if_pos h, List.map_map]
    refine List.map_congr_left ?_
    intro p _
    by_cases hp : p.1 == k
    · have : p.1 = k := by simpa using hp
      simp [Function.comp, hp, this]
    · simp [Function.comp, hp]
  · rw [dictSet, if_neg h, if_neg h]
    simp

theorem dictSet_keys_nodup {d : List (String × α)} (k : String) (v : α)
    (h : (d.map Prod.fst).Nodup) : ((dictSet d k v).map Prod.fst).Nodup := by
  rw [dictSet_keys]
  by_cases hk : d.any (fun p => p.1 == k) = true
  · rw [if_pos hk]; exact h
  · rw [if_neg hk]
    have hnk : k ∉ d.map Prod.fst := by
      intro hmem
      simp only [List.any_eq_true] at hk
      rcases List.mem_map.mp hmem with ⟨p, hp, hpk⟩
      exact hk ⟨p, hp, by simp [hpk]⟩
    simp only [List.nodup_append, List.nodup_cons, List.nodup_nil]
    exact ⟨h, by simp, by simpa [List.disjoint_singleton] using hnk⟩

theorem statsStep_keys_nodup {d : List (String × Submission)} (pid : String) (s : Submission)
    (h : (d.map Prod.fst).Nodup) : ((statsStep d pid s).map Prod.fst).Nodup := by
  rw [statsStep]
  cases d.lookup pid <;> exact dictSet_keys_nodup _ _ h

theorem statsFold_keys_nodup (rows : List (String × Submission)) :
    ((statsFold rows).map Prod.fst).Nodup := by
  suffices h : ∀ (d : List (String × Submission)), (d.map Prod.fst).Nodup →
      ((rows.foldl (fun d r => statsStep d r.1 r.2) d).map Prod.fst).Nodup from
    h [] (by simp)
  induction rows with
  | nil => intro d hd; simpa using hd
  | cons r rs ih =>
    intro d hd
    exact ih _ (statsStep_keys_nodup r.1 r.2 hd)

theorem lowDetail_ids_nodup (baseUrl : String) (rows : List (String × String)) :
    (((rows.foldl (lowDetailStep baseUrl) ([], [])).2.map LowRecord.id)).Nodup := by
  suffices h : ∀ (st : List String × List LowRecord),
      (st.2.map LowRecord.id).Nodup → (∀ i ∈ st.2.map LowRecord.id, st.1.contains i) →
      (((rows.foldl (lowDetailStep baseUrl) st).2.map LowRecord.id)).Nodup from
    h ([], []) (by simp) (by simp)
  induction rows with
  | nil => intro st hd _; simpa using hd
  | cons r rs ih =>
    intro st hd hsub
    refine ih (lowDetailStep baseUrl st r) ?_ ?_
    · rw [lowDetailStep]
      by_cases hmem : st.1.contains r.1 = true
      · rw [if_pos hmem]; exact hd
      · rw [if_neg hmem]
        simp only [List.map_append, List.map_cons, List.map_nil, List.nodup_append,
          List.nodup_cons, List.nodup_nil]
        refine ⟨hd, by simp, ?_⟩
        simp only [List.disjoint_singleton]
        intro hin
        exact hmem (hsub _ hin)
    · rw [lowDetailStep]
      by_cases hmem : st.1.contains r.1 = true
      · rw [if_pos hmem]; exact hsub
      · rw [if_neg hmem]
        intro i hi
        simp only [List.map_append, List.map_cons, List.map_nil, List.mem_append,
          List.mem_cons, List.not_mem_nil, or_false] at hi
        rcases hi with hi | hi
        · simp only [List.contains_cons, Bool.or_eq_true]
          exact Or.inr (hsub i hi)
        · simp [hi]

/-! ## PyFloat facts -/

theorem PyFloat.ltb_irrefl (a : PyFloat) : PyFloat.ltb a a = false := by
  simp [PyFloat.ltb]

theorem PyFloat.eqb_refl (a : PyFloat) : PyFloat.eqb a a = true := by
  simp [PyFloat.eqb]

/-- Negation reverses the numeric order. -/
theorem PyFloat.ltb_neg (a b : PyFloat) : PyFloat.ltb a.neg b.neg = PyFloat.ltb b a := by
  simp only [PyFloat.ltb, PyFloat.neg, neg_mul, decide_eq_decide]
  omega

/-! ## Cache lemma -/

theorem assocFind_append_none {κ ρ : Type} [DecidableEq κ] {cache : List (κ × ρ)} {k : κ}
    (h : assocFind cache k = none) (v : ρ) :
    assocFind (cache ++ [(k, v)]) k = some v := by
  induction cache with
  | nil => simp [assocFind]
  | cons p ps ih =>
    simp only [assocFind] at h ⊢
    by_cases hp : p.1 = k
    · rw [if_pos hp] at h; exact absurd h (by simp)
    · rw [if_neg hp] at h ⊢
      exact ih h

/-! ## Reducer evaluation lemmas -/

theorem PyFloat.ltb_asymm {a b : PyFloat} (h : PyFloat.ltb a b = true) :
    PyFloat.ltb b a = false := by
  simp only [PyFloat.ltb, decide_eq_true_eq] at h
  simp only [PyFloat.ltb, decide_eq_false_iff_not]
  omega

/-- Two rows with the same pid reduce to a single retained record chosen by
`max` with the incoming row's ratio as the shared score default. -/
theorem statsFold_pair (pid : String) (A B : Submission) :
    statsFold [(pid, A), (pid, B)] =
      [(pid, pyMax2 (subKey (fracOf B.test_case_passed B.test_case_full)) A B)] := by
  simp [statsFold, statsStep, dictSet, List.lookup]

/-- For two scoreless records compared under any shared default ratio, the
key comparison degenerates to passed count, then negated runtime. -/
theorem subKeyLt_scoreless (d : PyFloat) (A B : Submission)
    (hA : A.score = none) (hB : B.score = none) :
    subKeyLt (subKey d A) (subKey d B)
      = (A.test_case_passed < B.test_case_passed
          || (A.test_case_passed == B.test_case_passed
              && PyFloat.ltb (runtimeVal A.runtime).neg (runtimeVal B.runtime).neg)) := by
  simp [subKeyLt, subKey, hA, hB, PyFloat.ltb_irrefl, PyFloat.eqb_refl]

/-! # Claim theorems -/

/-- C1: every paginated capability issues rounds of exactly `MAX_WORKERS`
concurrent page requests with the cursor advanced by 1 per request (the pages
of round `r` are the `W` consecutive numbers starting at `p₀ + r·W`); after
each round the continuation flag is true iff at least one page of the round
produced at least one data row; and the loop stops exactly at the first round
whose whole batch is empty, requesting nothing beyond it.  `r₀` is that first
all-empty round. -/
theorem C1_pagination_rounds (pages : Nat → List Bool) (W p₀ r₀ fuel : Nat)
    (hfuel : r₀ < fuel)
    (hempty : ∀ i < W, pageHasRow pages (p₀ + r₀ * W + i) = false)
    (hprev : ∀ r < r₀, ∃ i < W, pageHasRow pages (p₀ + r * W + i) = true) :
    (∀ p, roundContent pages p W = (batchPages p W).any (pageHasRow pages)) ∧
    fetchLoop pages W p₀ fuel = (List.range ((r₀ + 1) * W)).map (p₀ + ·) :=
  ⟨fun p => roundContent_eq_any pages p W,
   fetchLoop_spec pages W r₀ p₀ fuel hfuel hempty hprev⟩

theorem C1_pagination_rounds_witness :
    (2 < 3 ∧ (∀ i < 2, pageHasRow demoPages (0 + 2 * 2 + i) = false) ∧
      (∀ r < 2, ∃ i < 2, pageHasRow demoPages (0 + r * 2 + i) = true)) ∧
    ((∀ p, roundContent demoPages p 2 = (batchPages p 2).any (pageHasRow demoPages)) ∧
      fetchLoop demoPages 2 0 3 = (List.range 6).map (0 + ·)) :=
  ⟨⟨by decide, by decide, by decide⟩,
   C1_pagination_rounds demoPages 2 0 2 3 (by decide) (by decide) (by decide)⟩

/-- C2 counterexample: the near-me `ranklist` capability (cited by the
claim) returns its records in page order without sorting; on a page whose
rows carry usernames `zeta` then `alpha`, the returned sequence is not
non-decreasing in the record's natural key (its username — ranklist records
have no `id` field at all). -/
theorem C2_counterexample_ranklist_unsorted :
    ranklistReturn [rowZeta, rowAlpha] = .ok [recZeta, recAlpha] ∧
    strLe (recZeta.username.getD "") (recAlpha.username.getD "") = false :=
  ⟨rfl, by decide⟩

/-- C2 (amended): the capabilities that aggregate concurrently fetched pages
(`problems`, `achievements`, `stats`) pass their collected records through
`sorted(..., key=lambda x: x['id'])` before return, so the output is
non-decreasing in the key, and — whenever the keys are pairwise distinct —
identical for any two arrival orders of the same records.  Single-page
capabilities such as `ranklist` return page order unsorted. -/
theorem C2_sorted_output (key : α → String) (l l' : List α)
    (h : l.Perm l') (nd : (l.map key).Nodup) :
    (pySortedBy key l).Sorted (fun a b => strLe (key a) (key b) = true) ∧
    pySortedBy key l = pySortedBy key l' :=
  ⟨pySortedBy_sorted key l, pySortedBy_perm_invariant key h nd⟩

theorem C2_sorted_output_witness :
    ((["b", "a"].Perm ["a", "b"]) ∧ ((["b", "a"].map id).Nodup)) ∧
    ((pySortedBy id ["b", "a"]).Sorted (fun a b => strLe (id a) (id b) = true) ∧
      pySortedBy id ["b", "a"] = pySortedBy id ["a", "b"]) :=
  ⟨⟨List.Perm.swap "a" "b" [], by decide⟩,
   C2_sorted_output id ["b", "a"] ["a", "b"] (List.Perm.swap "a" "b" []) (by decide)⟩

/-- C3 counterexample: two scoreless rows for the same problem id —
`subHighRat` has the higher passed/full ratio (2/3 > 3/5) and the slower
runtime, `subLowRat` the lower ratio and the faster runtime — yet the reducer
retains `subLowRat`: because `x.get('score', tc_pass/tc_full)` evaluates the
default from the incoming row for *both* records, the first key component
ties and the passed-test-case count (3 > 2) decides. -/
theorem C3_counterexample_reducer :
    PyFloat.ltb (fracOf subLowRat.test_case_passed subLowRat.test_case_full)
        (fracOf subHighRat.test_case_passed subHighRat.test_case_full) = true ∧
    PyFloat.ltb (runtimeVal subLowRat.runtime) (runtimeVal subHighRat.runtime) = true ∧
    statsFold [("p", subHighRat), ("p", subLowRat)] = [("p", subLowRat)] ∧
    subLowRat ≠ subHighRat := by
  refine ⟨by decide, by decide, ?_, by decide⟩
  rw [statsFold_pair]
  decide

/-- C3 (amended): for records carrying an explicit score the score decides;
for two scoreless records the first comparator component evaluates, for both
records, to the incoming row's `tc_pass/tc_full`, so it always ties and the
decision falls to the passed test-case count (descending), then the numeric
runtime (ascending, with a `>`-marked runtime treated as the sentinel `1e9`).
Hence the row with strictly more passed test cases is retained regardless of
arrival order, and on equal passed counts the faster row is retained; in
particular, when the two rows have equal `test_case_full`, the
higher-ratio row is the one retained. -/
theorem C3_reducer_amended (pid : String) (A B : Submission)
    (hA : A.score = none) (hB : B.score = none) :
    (B.test_case_passed < A.test_case_passed →
      statsFold [(pid, A), (pid, B)] = [(pid, A)] ∧
      statsFold [(pid, B), (pid, A)] = [(pid, A)]) ∧
    (A.test_case_passed = B.test_case_passed →
      PyFloat.ltb (runtimeVal A.runtime) (runtimeVal B.runtime) = true →
      statsFold [(pid, A), (pid, B)] = [(pid, A)] ∧
      statsFold [(pid, B), (pid, A)] = [(pid, A)]) := by
  constructor
  · intro hpass
    constructor
    · rw [statsFold_pair, pyMax2, subKeyLt_scoreless _ _ _ hA hB]
      rw [if_neg (by simp; omega)]
    · rw [statsFold_pair, pyMax2, subKeyLt_scoreless _ _ _ hB hA]
      rw [if_pos (by simp [hpass])]
  · intro hpass hrt
    constructor
    · rw [statsFold_pair, pyMax2, subKeyLt_scoreless _ _ _ hA hB]
      rw [if_neg ?hn]
      case hn =>
        rw [PyFloat.ltb_neg, PyFloat.ltb_asymm hrt]
        simp [hpass]
    · rw [statsFold_pair, pyMax2, subKeyLt_scoreless _ _ _ hB hA]
      rw [if_pos ?hp]
      case hp =>
        rw [PyFloat.ltb_neg, hrt]
        simp [hpass]

theorem C3_reducer_amended_witness :
    (subHighRat.score = none ∧ subLowRat.score = none) ∧
    ((subLowRat.test_case_passed < subHighRat.test_case_passed →
        statsFold [("q", subHighRat), ("q", subLowRat)] = [("q", subHighRat)] ∧
        statsFold [("q", subLowRat), ("q", subHighRat)] = [("q", subHighRat)]) ∧
      (subHighRat.test_case_passed = subLowRat.test_case_passed →
        PyFloat.ltb (runtimeVal subHighRat.runtime) (runtimeVal subLowRat.runtime) = true →
        statsFold [("q", subHighRat), ("q", subLowRat)] = [("q", subHighRat)] ∧
        statsFold [("q", subLowRat), ("q", subHighRat)] = [("q", subHighRat)])) :=
  ⟨⟨rfl, rfl⟩, C3_reducer_amended "q" subHighRat subLowRat rfl rfl⟩

/-- C4 counterexample: the `stats` capability runs a *fresh* dict for each
requested language and concatenates the per-language results with
`ret.extend`, so a problem accepted in two requested languages appears twice
in the returned container: with both `"C++"` and `"Kotlin"` valid and each
language's scan yielding the problem id `"hello"`, the returned ids are
`["hello", "hello"]` — duplicate natural keys survive, refuting the claim's
"at most one record per natural key" for `stats`. -/
theorem C4_counterexample_multilanguage :
    (openStatsReturn ["C++", "Kotlin"] (fun _ => [("hello", subHighRat)])
        ["C++", "Kotlin"]).map Prod.fst = ["hello", "hello"] ∧
    ¬ ((openStatsReturn ["C++", "Kotlin"] (fun _ => [("hello", subHighRat)])
        ["C++", "Kotlin"]).map Prod.fst).Nodup := by
  constructor
  · decide
  · decide

/-- C4 (amended): the dedup-by-natural-key guarantee holds per fetch, not
across a batch: within one requested language the `stats` reducer stores
records in a dict keyed by problem id, so a single-language call returns
pairwise distinct ids; and the low-detail `problems` scan skips any row
whose pid is already in `pid_set`, so its returned container always has
pairwise distinct ids.  Across several requested languages `stats`
concatenates the per-language dicts, and the same problem id may appear once
per language. -/
theorem C4_dedup_per_language (known : List String)
    (rows : String → List (String × Submission)) (lang : String)
    (baseUrl : String) (lrows : List (String × String)) :
    ((openStatsReturn known rows [lang]).map Prod.fst).Nodup ∧
    ((problemsLowReturn baseUrl lrows).map LowRecord.id).Nodup := by
  constructor
  · unfold openStatsReturn
    have hd : dedupFirst [lang] = [lang] := by simp [dedupFirst]
    rw [hd]
    simp only [List.foldl_cons, List.foldl_nil]
    by_cases hskip : (lang ≠ "" ∧ ¬ known.contains lang = true)
    · rw [if_pos hskip]
      exact List.nodup_nil
    · rw [if_neg hskip]
      exact ((pySortedBy_perm Prod.fst _).map Prod.fst).nodup_iff.mpr
        (statsFold_keys_nodup (rows lang))
  · exact ((pySortedBy_perm LowRecord.id _).map LowRecord.id).nodup_iff.mpr
      (lowDetail_ids_nodup baseUrl lrows)

/-- C5 counterexample: `list_to_tuple` normalizes a list argument with
`tuple(...)`, which preserves element order, so the two argument lists
`['a','b']` and `['b','a']` produce *different* cache keys — the
normalization is hashable but not order-independent. -/
theorem C5_counterexample_order_dependent_key :
    list_to_tuple_arg (.listA ["a", "b"]) ≠ list_to_tuple_arg (.listA ["b", "a"]) := by
  decide

/-- C5 (amended): within one session a second call of a memoized capability
with the identical (already-normalized) argument returns the previously
computed, structurally equal result and issues zero network requests; and
collection arguments are normalized by `tuple(...)` to a hashable form that
preserves iteration order (it is not order-independent). -/
theorem C5_memoized_second_call {κ ρ : Type} [DecidableEq κ]
    (cache : List (κ × ρ)) (compute : κ → ρ × Nat) (k : κ) (xs : List String) :
    memoCall (memoCall cache compute k).2.1 compute k
      = ((memoCall cache compute k).1, (memoCall cache compute k).2.1, 0) ∧
    list_to_tuple_arg (.listA xs) = .tupleA xs := by
  refine ⟨?_, rfl⟩
  cases h : assocFind cache k with
  | some r => simp [memoCall, h]
  | none => simp [memoCall, h, assocFind_append_none h]

/-- C6: the resolver returns a map key unchanged, reverse-maps a map value,
and otherwise fuzzy-matches over all keys and values using the full-string
similarity score with the partial score only as tie-break — whatever
tie-break scorer `pr` is used, `"Singapore"` and `"SGP"` resolve to the same
code `"SGP"`, and the typo `"Sngapore"` still resolves to `"SGP"`. -/
theorem C6_resolver_examples (pr : String → String → Nat) :
    guess_id pr "Singapore" countryMap = .ok "SGP" ∧
    guess_id pr "SGP" countryMap = .ok "SGP" ∧
    guess_id pr "Sngapore" countryMap = .ok "SGP" := by
  refine ⟨rfl, rfl, ?_⟩
  have hmax : pyMaxBy (fun c => (fuzzScore "Sngapore" c, pr "Sngapore" c))
      (candidateKeys countryMap) = some "Singapore" := by
    have hc : candidateKeys countryMap
        = ["SGP", "USA", "IDN", "Singapore", "United States", "Indonesia"] := by decide
    rw [hc]
    simp only [pyMaxBy]
    exact congrArg some
      (pyMaxAux_eq_of_strict (fuzzScore "Sngapore") (pr "Sngapore") "Singapore" _ "SGP"
        (Or.inr (by decide)) (by decide) (Or.inl (by decide)))
  unfold guess_id
  rw [if_neg (by decide), show revLookup countryMap "Sngapore" = (none : Option String) from
    by decide]
  show guessFuzzy pr "Sngapore" countryMap = Except.ok "SGP"
  unfold guessFuzzy
  rw [hmax]
  rfl

/-- C7: for every non-empty mapping the final not-found branch of the
resolver is unreachable: the fuzzy candidate set is exactly the keys and
values of the map, so the chosen best candidate always resolves through the
exact or reverse step and `guess_id` returns a code. -/
theorem C7_resolver_never_not_found (pr : String → String → Nat) (guess : String)
    (data : List (String × String)) (hne : data ≠ []) :
    ∃ code, guess_id pr guess data = .ok code := by
  unfold guess_id
  by_cases h1 : ((data.map Prod.fst).contains guess) = true
  · rw [if_pos h1]
    exact ⟨guess, rfl⟩
  · rw [if_neg h1]
    cases hrev : revLookup data guess with
    | some k => exact ⟨k, rfl⟩
    | none =>
      unfold guessFuzzy
      have hkeysne : data.map Prod.fst ≠ [] := by
        cases data
        · exact absurd rfl hne
        · simp
      cases hc : candidateKeys data with
      | nil =>
        exfalso
        apply hkeysne
        unfold candidateKeys at hc
        exact (List.append_eq_nil.mp hc).1
      | cons c0 cs =>
        show ∃ code,
          (if (data.map Prod.fst).contains
              (pyMaxAux (fun c => (fuzzScore guess c, pr guess c)) c0 cs) = true
            then Except.ok (pyMaxAux (fun c => (fuzzScore guess c, pr guess c)) c0 cs)
            else
              match revLookup data (pyMaxAux (fun c => (fuzzScore guess c, pr guess c)) c0 cs) with
              | some k => Except.ok k
              | none => Except.error GuessErr.invalidId) = Except.ok code
        by_cases hb : ((data.map Prod.fst).contains
            (pyMaxAux (fun c => (fuzzScore guess c, pr guess c)) c0 cs)) = true
        · exact ⟨_, if_pos hb⟩
        · have hmem : pyMaxAux (fun c => (fuzzScore guess c, pr guess c)) c0 cs
              ∈ candidateKeys data := by
            rw [hc]
            rcases pyMaxAux_mem (fun c => (fuzzScore guess c, pr guess c)) cs c0 with h | h
            · rw [h]; exact List.mem_cons_self _ _
            · exact List.mem_cons_of_mem _ h
          have hval : pyMaxAux (fun c => (fuzzScore guess c, pr guess c)) c0 cs
              ∈ data.map Prod.snd := by
            unfold candidateKeys at hmem
            rcases List.mem_append.mp hmem with h | h
            · exact absurd h (by simpa using hb)
            · exact dedupFirst_subset (List.mem_of_mem_filter h)
          obtain ⟨k, hk⟩ := Option.isSome_iff_exists.mp (revLookup_isSome_of_mem hval)
          exact ⟨k, by rw [if_neg hb, hk]⟩

theorem C7_resolver_never_not_found_witness :
    countryMap ≠ [] ∧
    ∃ code, guess_id (fun _ _ => 0) "Sngpore" countryMap = .ok code :=
  ⟨by decide, C7_resolver_never_not_found (fun _ _ => 0) "Sngpore" countryMap (by decide)⟩

/-- C8: difficulty/category cell parsing.  On a composite cell the numeric
difficulty is the last numeric run (the maximum end of a range) and the
category the first alphabetic run; a missing alphabetic part yields `"N/A"`;
in `achievements` a missing numeric part yields `None`.  But in the
full-detail `problems` extractor the difficulty conversion is unguarded:
`float((re.findall(...) or [None])[-1])` evaluates `float(None)` and raises
`TypeError`, contradicting both the claim and the intent visible in the
`or [None]` fallback — a code bug at input `"Medium"`. -/
theorem C8_difficulty_category_cells :
    difficultyCellProblems "Medium 4.2-4.6" = .ok ⟨46, 10⟩ ∧
    categoryCellProblems "Medium 4.2-4.6" = "Medium" ∧
    categoryCellProblems "4.2" = "N/A" ∧
    difficultyCellAchievements "Medium" = none ∧
    categoryCellAchievements "Medium" = "Medium" ∧
    difficultyCellAchievements "Medium 4.2-4.6" = some ⟨46, 10⟩ ∧
    difficultyCellProblems "Medium" = .error .typeError :=
  ⟨rfl, rfl, rfl, rfl, rfl, rfl, rfl⟩

/-- C9: a double-dash placeholder in the fastest-runtime column decodes to
`float('inf')`, and in the shortest-length column to `-1`, instead of
failing to parse. -/
theorem C9_double_dash_sentinels (fastestText shortestText : String)
    (hf : fastestText = "--") (hs : shortestText = "--") :
    replaceDoubleDashInf fastestText = .ok .inf ∧
    replaceDoubleDashNeg1 shortestText = .ok (-1) := by
  subst hf; subst hs
  exact ⟨rfl, rfl⟩

theorem C9_double_dash_sentinels_witness :
    ("--" = "--" ∧ "--" = "--") ∧
    (replaceDoubleDashInf "--" = .ok .inf ∧ replaceDoubleDashNeg1 "--" = .ok (-1)) :=
  ⟨⟨rfl, rfl⟩, C9_double_dash_sentinels "--" "--" rfl rfl⟩

/-- C10: for the stats capability, an unknown language in the batch-style
`OpenKattis.stats` loop is skipped (with a printed warning) while the valid
languages still contribute their records — the result equals the call
without the invalid item; in the single-language-first legacy `Kattis.stats`
an unknown language trips the `assert` and is fatal. -/
theorem C10_invalid_language (known : List String)
    (rows : String → List (String × Submission)) (bad good : String)
    (hbad : bad ≠ "") (hnotin : ¬ known.contains bad = true)
    (hne : bad ≠ good) (hgood : known.contains good = true) :
    openStatsReturn known rows [bad, good] = openStatsReturn known rows [good] ∧
    kattisStatsCheck known [bad] = .error .assertionError := by
  constructor
  · have hdedup : dedupFirst [bad, good] = [bad, good] := by
      simp [dedupFirst, Ne.symm hne]
    have hdedup' : dedupFirst [good] = [good] := by simp [dedupFirst]
    rw [openStatsReturn, openStatsReturn, hdedup, hdedup']
    simp only [List.foldl_cons, List.foldl_nil]
    rw [if_neg (fun h => h.2 hgood), if_pos (⟨hbad, hnotin⟩ : bad ≠ "" ∧ _),
      if_neg (fun h => h.2 hgood)]
  · rw [kattisStatsCheck, if_pos ⟨hbad, hnotin⟩]

theorem C10_invalid_language_witness :
    ("Nope" ≠ "" ∧ ¬ ["C++"].contains "Nope" = true ∧ "Nope" ≠ "C++" ∧
      ["C++"].contains "C++" = true) ∧
    (openStatsReturn ["C++"] (fun _ => []) ["Nope", "C++"]
        = openStatsReturn ["C++"] (fun _ => []) ["C++"] ∧
      kattisStatsCheck ["C++"] ["Nope"] = .error .assertionError) :=
  ⟨⟨by decide, by decide, by decide, by decide⟩,
   C10_invalid_language ["C++"] (fun _ => []) "Nope" "C++"
     (by decide) (by decide) (by decide) (by decide)⟩

end Autokattis
